import Mathlib

/-!
Verification development for the `nifty` Doxygen-search repository.

The definitions below are a shallow embedding of the TypeScript source:

* `Nifty.Search` embeds `src/search/engines/simple.ts` (the
  `SimpleSearchEngine`), `src/search/engines/fuzzy.ts` (the
  `FuzzySearchEngine`) and the shared `SearchEngine` base class.
  JavaScript strings are modelled as `List Char`; the floating-point
  relevance scores are modelled over `ℚ` with the exact constants of the
  source.  The optional highlight payload (`generateHighlights`,
  `getContext`) is orthogonal to every property proved here and is not
  modelled.
* `Nifty.Parser` embeds the entity-builder base class
  (`entity-builders/base.ts`), the namespace builder, the enum builder
  (`enum-builder.ts`), the member-reference extractor
  (`extractors/members.ts`) and the per-compound / per-member error
  isolation of `doxygen-parser.ts`.  File reading and XML decoding are
  I/O; they enter the embedding as an explicit `Except`-valued argument.
-/

namespace Nifty
namespace Search

/-- Match tier labels of `MatchedField.matchType` in `search/types.ts`
(`exact | prefix | substring | fuzzy | semantic`); the second tier is
called `starts` here. -/
inductive MatchType where
  | exact
  | starts
  | substring
  | fuzzy
  deriving DecidableEq, Repr

/-- One matched field of a search result (`MatchedField` in
`search/types.ts`). -/
structure MatchedField where
  fieldName : String
  matchType : MatchType
  score : ℚ
  deriving DecidableEq, Repr

/-- JavaScript `field.startsWith term`: the term is a leading piece of
the field. -/
def startsWithL : List Char → List Char → Bool
  | _, [] => true
  | [], _ :: _ => false
  | c :: cs, d :: ds => c == d && startsWithL cs ds

/-- JavaScript `field.indexOf term` (and `includes`): index of the first
occurrence of `term` in `field`, `none` when there is no occurrence.
`indexOf` of the empty term is `0`. -/
def firstIndexOf? (field term : List Char) : Option Nat :=
  if startsWithL field term then some 0
  else
    match field with
    | [] => none
    | _ :: cs => (firstIndexOf? cs term).map (· + 1)

/-- The substring-tier score of `scoreField` in `simple.ts`:
`0.5 + (1 - position / fieldValue.length) * 0.3`. -/
def substringScore (position fieldLength : ℕ) : ℚ :=
  1/2 + (1 - (position : ℚ) / (fieldLength : ℚ)) * (3/10)

/-- `SimpleSearchEngine.scoreField` (`simple.ts`): tiered scoring of one
already-normalized field value against the normalized term.  Exact
equality → 1.0; otherwise, when exact-match-only is set, no match;
starts-with → 0.9; contained at `position` →
`0.5 + (1 - position/length) * 0.3`; otherwise no match. -/
def scoreField (fieldValue searchTerm : List Char) (fieldName : String)
    (exactMatch : Bool) : Option MatchedField :=
  if fieldValue = searchTerm then
    some { fieldName := fieldName, matchType := .exact, score := 1 }
  else if exactMatch then
    none
  else if startsWithL fieldValue searchTerm then
    some { fieldName := fieldName, matchType := .starts, score := 9/10 }
  else
    match firstIndexOf? fieldValue searchTerm with
    | some position =>
        some { fieldName := fieldName, matchType := .substring,
               score := substringScore position fieldValue.length }
    | none => none

/-- Entity kinds (`EntityKind` in `parser/types.ts`). -/
inductive EntityKind where
  | «class» | «struct» | function | method | «namespace»
  | enum | typedef | variable | define
  deriving DecidableEq, Repr

/-- The slice of `DoxygenEntity` (`parser/types.ts`) that the search
engines read: `name`, `qualifiedName`, optional `briefDescription`, and
`kind` for the type filter. -/
structure DoxygenEntity where
  name : List Char
  qualifiedName : List Char
  briefDescription : Option (List Char)
  kind : EntityKind
  deriving DecidableEq, Repr

/-- `SearchQuery` (`search/types.ts`): the fields the engines consume. -/
structure SearchQuery where
  term : List Char
  entityTypes : Option (List EntityKind) := none
  exactMatch : Option Bool := none
  maxResults : Option Nat := none
  deriving DecidableEq, Repr

/-- `SearchOptions` fields the engines consume (`search/types.ts`);
defaults are those of `SearchEngine.getDefaultOptions`. -/
structure SearchOptions where
  caseSensitive : Bool := false
  maxResults : Nat := 50
  includeDescriptions : Bool := true
  deriving DecidableEq, Repr

/-- A search result (`SearchResult` in `search/types.ts`) without the
optional highlight payload. -/
structure SearchResult where
  entity : DoxygenEntity
  relevance : ℚ
  matchedFields : List MatchedField
  deriving DecidableEq, Repr

/-- Case normalization used by both `search` and `scoreEntity`:
lower-case unless the engine is case sensitive. -/
def normalizeChars (caseSensitive : Bool) (s : List Char) : List Char :=
  if caseSensitive then s else s.map Char.toLower

/-- `SimpleSearchEngine.scoreEntity` (`simple.ts`): scores `name` (weight
1.0), `qualifiedName` (weight 0.8) and, when descriptions are enabled and
the description is non-empty, `briefDescription` (weight 0.3, always with
exact-match off); returns `none` when no field matched, else the result
with relevance `min totalScore 1`. -/
def scoreEntity (opts : SearchOptions) (entity : DoxygenEntity)
    (searchTerm : List Char) (query : SearchQuery) : Option SearchResult :=
  let exact := query.exactMatch.getD false
  let nameScore :=
    scoreField (normalizeChars opts.caseSensitive entity.name) searchTerm
      "name" exact
  let qualifiedScore :=
    scoreField (normalizeChars opts.caseSensitive entity.qualifiedName)
      searchTerm "qualifiedName" exact
  let descScore :=
    if opts.includeDescriptions then
      match entity.briefDescription with
      | some d =>
          if d = [] then none
          else
            scoreField (normalizeChars opts.caseSensitive d) searchTerm
              "briefDescription" false
      | none => none
    else none
  let matchedFields := nameScore.toList ++ qualifiedScore.toList ++ descScore.toList
  let totalScore :=
    (nameScore.map MatchedField.score).getD 0
      + ((qualifiedScore.map MatchedField.score).getD 0) * (8/10)
      + ((descScore.map MatchedField.score).getD 0) * (3/10)
  if matchedFields = [] then none
  else
    some { entity := entity, relevance := min totalScore 1,
           matchedFields := matchedFields }

/-- Stable descending insertion: `r` goes in front of the first element
whose relevance does not exceed it.  This realizes the ECMAScript
stable `Array.prototype.sort` with comparator `(a, b) => b.relevance -
a.relevance` used in `SimpleSearchEngine.search`. -/
def insertDesc (r : SearchResult) : List SearchResult → List SearchResult
  | [] => [r]
  | x :: xs =>
      if x.relevance ≤ r.relevance then r :: x :: xs
      else x :: insertDesc r xs

/-- Stable sort by descending relevance (step 4 of
`SimpleSearchEngine.search`). -/
def sortDesc : List SearchResult → List SearchResult
  | [] => []
  | r :: rest => insertDesc r (sortDesc rest)

/-- Step 1 of `SimpleSearchEngine.search`: normalize the query term. -/
def normalizeTerm (opts : SearchOptions) (query : SearchQuery) : List Char :=
  if opts.caseSensitive then query.term else query.term.map Char.toLower

/-- Step 2 of `SimpleSearchEngine.search`: filter by requested entity
kinds when a non-empty list is supplied. -/
def candidateEntities (entities : List DoxygenEntity)
    (query : SearchQuery) : List DoxygenEntity :=
  match query.entityTypes with
  | some ts => if ts ≠ [] then entities.filter (fun e => ts.contains e.kind) else entities
  | none => entities

/-- Step 3 of `SimpleSearchEngine.search`: keep the scored results whose
relevance is positive. -/
def scoredResults (opts : SearchOptions) (entities : List DoxygenEntity)
    (query : SearchQuery) : List SearchResult :=
  (candidateEntities entities query).filterMap fun e =>
    match scoreEntity opts e (normalizeTerm opts query) query with
    | some r => if 0 < r.relevance then some r else none
    | none => none

/-- `query.maxResults || this.options.maxResults` — JavaScript `||`
falls back when the per-query limit is absent or `0` (falsy). -/
def effectiveMax (queryMax : Option Nat) (optionsMax : Nat) : Nat :=
  match queryMax with
  | some m => if m = 0 then optionsMax else m
  | none => optionsMax

/-- `SimpleSearchEngine.search` (`simple.ts`): normalize, filter, score,
stable-sort descending, cut at the effective limit. -/
def search (opts : SearchOptions) (entities : List DoxygenEntity)
    (query : SearchQuery) : List SearchResult :=
  (sortDesc (scoredResults opts entities query)).take
    (effectiveMax query.maxResults opts.maxResults)

/-- The engine configuration used by the concrete witnesses below:
the defaults of `SearchEngine.getDefaultOptions` with case sensitivity
switched on. -/
def sampleOpts : SearchOptions :=
  { caseSensitive := true, maxResults := 50, includeDescriptions := true }

/-- A one-character sample entity used by the concrete witnesses. -/
def entA : DoxygenEntity :=
  { name := ['a'], qualifiedName := ['a'], briefDescription := none,
    kind := .function }

/-- The query for the one-character term "a". -/
def queryA : SearchQuery := { term := ['a'] }

/-- The result the Simple engine produces for `entA` under `queryA`:
both `name` and `qualifiedName` hit the exact tier, `1 + 1 × 0.8`
clamps to relevance 1. -/
def resultA : SearchResult :=
  { entity := entA, relevance := 1,
    matchedFields :=
      [ { fieldName := "name", matchType := .exact, score := 1 },
        { fieldName := "qualifiedName", matchType := .exact, score := 1 } ] }

/-- A second sample entity whose fields never contain the sample term. -/
def entB : DoxygenEntity :=
  { name := ['b'], qualifiedName := ['b'], briefDescription := none,
    kind := .function }

/-- The sample entity used for the exact-match-only counterexample: its
description "ba" starts with the term "b" while no field equals it. -/
def entC : DoxygenEntity :=
  { name := ['f'], qualifiedName := ['f'],
    briefDescription := some ['b','a'], kind := .function }

/-- A query for the term "b" with exact-match-only requested. -/
def queryBExact : SearchQuery := { term := ['b'], exactMatch := some true }

/-- `queryA` with exact-match-only requested. -/
def queryAExact : SearchQuery := { term := ['a'], exactMatch := some true }

/-- The options of the Simple-engine capping counterexample: configured
maximum of 1 result. -/
def cappedOpts : SearchOptions :=
  { caseSensitive := true, maxResults := 1, includeDescriptions := true }

/-- The query of the capping counterexample: per-query limit 2. -/
def queryMax2 : SearchQuery := { term := ['a'], maxResults := some 2 }

/-- One reported match of the external `fuse.js` index
(`Fuse.FuseResultMatch`): the matched key, the per-field distance and
the matched character ranges. -/
structure FuseMatch where
  key : Option String
  score : Option ℚ
  indices : List (Nat × Nat)
  deriving DecidableEq, Repr

/-- One raw result of the external `fuse.js` search (`Fuse.FuseResult`):
the stored document, the optional distance (0 = perfect) and the
optional match list. -/
structure FuseResult where
  item : DoxygenEntity
  score : Option ℚ
  «matches» : Option (List FuseMatch)
  deriving DecidableEq, Repr

/-- The approximate-match index built by
`FuzzySearchEngine.onEntitiesLoaded` over the loaded snapshot; the
matching behavior of `fuse.js` itself is external and stays abstract. -/
structure FuseIndex where
  docs : List DoxygenEntity
  deriving DecidableEq, Repr

/-- The `FuzzySearchEngine` instance state: the loaded snapshot
(`this.entities` of the base class) and the optional index
(`this.fuse`, initially `null`). -/
structure FuzzyEngineState where
  entities : List DoxygenEntity := []
  fuse : Option FuseIndex := none
  deriving DecidableEq, Repr

/-- A freshly constructed `FuzzySearchEngine`: no entities, no index. -/
def initialFuzzyState : FuzzyEngineState := {}

/-- `FuzzySearchEngine.onEntitiesLoaded`: builds the fuzzy index over
the current snapshot. -/
def fuzzyOnEntitiesLoaded (st : FuzzyEngineState) : FuzzyEngineState :=
  { st with fuse := some { docs := st.entities } }

/-- `SearchEngine.loadEntities` as inherited by the fuzzy engine:
replace the snapshot, then run the on-load hook. -/
def loadEntities (st : FuzzyEngineState) (es : List DoxygenEntity) :
    FuzzyEngineState :=
  fuzzyOnEntitiesLoaded { st with entities := es }

/-- Steps of `FuzzySearchEngine.search` after the index lookup: convert
the raw `fuse.js` results, apply the kind filter, apply the result
limit `query.maxResults || this.options.maxResults`. -/
def fuzzySearchResults (fuseResults : List FuseResult)
    (query : SearchQuery) (opts : SearchOptions) : List SearchResult :=
  let results := fuseResults.map fun fr =>
    ({ entity := fr.item, relevance := 1 - fr.score.getD 0,
       matchedFields := (fr.«matches».getD []).map fun m =>
         ({ fieldName := m.key.getD "unknown", matchType := .fuzzy,
            score := 1 - m.score.getD 0 } : MatchedField) } : SearchResult)
  let results :=
    match query.entityTypes with
    | some ts =>
        if ts ≠ [] then
          results.filter (fun (r : SearchResult) => ts.contains r.entity.kind)
        else results
    | none => results
  results.take (effectiveMax query.maxResults opts.maxResults)

/-- `FuzzySearchEngine.search`: throws a load-state error when no index
exists, otherwise runs the external index (`fuseExec` abstracts
`this.fuse.search`) and post-processes. -/
def fuzzySearch (fuseExec : FuseIndex → List Char → List FuseResult)
    (st : FuzzyEngineState) (query : SearchQuery) (opts : SearchOptions) :
    Except String (List SearchResult) :=
  match st.fuse with
  | none => .error "Entities not loaded. Call loadEntities() first."
  | some fuse => .ok (fuzzySearchResults (fuseExec fuse query.term) query opts)

end Search
end Nifty
namespace Nifty
namespace Parser

/-- Visibility levels (`Visibility` in `parser/types.ts`). -/
inductive Visibility where
  | «public»
  | «protected»
  | «private»
  deriving DecidableEq, Repr

/-- A documentation node as `fast-xml-parser` hands it to
`EntityBuilder.extractText`: either a plain string, or an object whose
`para` property (absent, or normalized to a list), `#text` property and
remaining `Object.values` (in order) are carried explicitly. -/
inductive XText where
  | str (s : String)
  | obj (para : Option (List XText)) (text : Option String)
      (values : List XText)

/-- JavaScript `.trim()`: drop whitespace from both ends. -/
def trimS (s : String) : String :=
  String.mk
    (((s.data.dropWhile Char.isWhitespace).reverse.dropWhile
        Char.isWhitespace).reverse)

mutual

/-- `EntityBuilder.extractText` (`entity-builders/base.ts`): a string is
returned as is; a `para` property maps the paragraphs through
`extractText`, joins with newline and trims; else a non-empty `#text`
is returned as is; else the object's values are flattened, joined with
a single space and trimmed. -/
def extractText : XText → String
  | .str s => s
  | .obj (some ps) _ _ =>
      trimS (String.intercalate "\n" (extractTextList ps))
  | .obj none (some t) vs =>
      if t = "" then trimS (String.intercalate " " (extractTextList vs))
      else t
  | .obj none none vs =>
      trimS (String.intercalate " " (extractTextList vs))

/-- `extractText` mapped over a node list. -/
def extractTextList : List XText → List String
  | [] => []
  | x :: xs => extractText x :: extractTextList xs

end

/-- JavaScript falsiness of a documentation node: only the empty string
is falsy. -/
def xFalsy : XText → Bool
  | .str s => s = ""
  | .obj _ _ _ => false

/-- JavaScript `a || b` on an optional string: `b` when `a` is absent
or empty. -/
def strOr (a : Option String) (b : String) : String :=
  match a with
  | some s => if s = "" then b else s
  | none => b

/-- JavaScript `a || b` on two strings. -/
def strOrS (a b : String) : String :=
  if a = "" then b else a

/-- `value.replace(/^\s*=\s*/, '')` in
`EnumEntityBuilder.extractExplicitValue`: strip one leading `=` with
the whitespace around it; without a leading `=` the string is
unchanged. -/
def stripLeadingEq (s : String) : String :=
  match s.data.dropWhile Char.isWhitespace with
  | '=' :: rest => String.mk (rest.dropWhile Char.isWhitespace)
  | _ => s

/-- `EnumEntityBuilder.extractExplicitValue` (`enum-builder.ts`): absent
or falsy initializer → no value; else flatten, strip the leading `=`,
trim; an empty remainder → no value. -/
def extractExplicitValue (initializer : Option XText) : Option String :=
  match initializer with
  | none => none
  | some ini =>
      if xFalsy ini then none
      else
        let value := trimS (stripLeadingEq (extractText ini))
        if value = "" then none else some value

/-- `EnumEntityBuilder.extractUnderlyingType` (`enum-builder.ts`):
absent or falsy type node → omitted; flattened text empty or blank
after trimming → omitted; else the trimmed text. -/
def extractUnderlyingType (type : Option XText) : Option String :=
  match type with
  | none => none
  | some ty =>
      if xFalsy ty then none
      else
        let typeStr := extractText ty
        if typeStr = "" ∨ trimS typeStr = "" then none
        else some (trimS typeStr)

/-- One `enumvalue` element as the enum builder reads it. -/
structure EnumValueNode where
  name : Option String := none
  initializer : Option XText := none
  briefdescription : Option XText := none

/-- One entry of `EnumEntity.values` (`EnumValue` in
`parser/types.ts`). -/
structure EnumValue where
  name : String
  value : Option String
  description : Option String
  deriving DecidableEq, Repr

/-- `EntityBuilder.extractBriefDescription` applied to an already
fetched `briefdescription` property: falsy → absent, else the
flattened text. -/
def extractBriefDescriptionX (brief : Option XText) : Option String :=
  match brief with
  | none => none
  | some b => if xFalsy b then none else some (extractText b)

/-- `EnumEntityBuilder.buildEnumValue` (`enum-builder.ts`). -/
def buildEnumValue (enumValNode : EnumValueNode) : EnumValue :=
  { name := strOr enumValNode.name "",
    value := extractExplicitValue enumValNode.initializer,
    description := extractBriefDescriptionX enumValNode.briefdescription }

/-- One `memberdef` element as the member-reference extractor reads it
(`extractors/members.ts`). -/
structure MemberDef where
  idAttr : Option String := none
  name : Option String := none
  kindAttr : Option String := none
  protAttr : Option String := none
  deriving DecidableEq, Repr

/-- One `sectiondef` element: its normalized `memberdef` list. -/
structure Section where
  memberdef : List MemberDef := []
  deriving DecidableEq, Repr

/-- `MemberReference` (`parser/types.ts`): the lightweight member
record; `kind` is the raw attribute (absent when missing), `visibility`
the raw attribute defaulted to `"public"`. -/
structure MemberReference where
  id : String
  name : String
  kind : Option String
  visibility : String
  deriving DecidableEq, Repr

/-- The per-member body of `extractMembers` (`extractors/members.ts`):
`id` and `name` default to the empty string, `visibility` to
`"public"`. -/
def toMemberReference (memberDef : MemberDef) : MemberReference :=
  { id := strOr memberDef.idAttr "",
    name := strOr memberDef.name "",
    kind := memberDef.kindAttr,
    visibility := strOr memberDef.protAttr "public" }

/-- The compound-level XML node as the entity builders read it. -/
structure XmlNode where
  idAttr : Option String := none
  compoundname : Option String := none
  name : Option String := none
  qualifiedname : Option String := none
  locationFile : Option String := none
  locationLine : Option Nat := none
  briefdescription : Option XText := none
  detaileddescription : Option XText := none
  protAttr : Option String := none
  sectiondef : List Section := []

/-- `extractMembers` (`extractors/members.ts`): every `memberdef` of
every `sectiondef`, in order. -/
def extractMembers (xmlNode : XmlNode) : List MemberReference :=
  xmlNode.sectiondef.flatMap fun sec =>
    sec.memberdef.map toMemberReference

/-- `EntityBuilder.extractVisibility` (`entity-builders/base.ts`): the
`prot` attribute when it is one of the three visibility words, absent
otherwise. -/
def extractVisibility (xmlNode : XmlNode) : Option Visibility :=
  match xmlNode.protAttr with
  | some "public" => some .«public»
  | some "protected" => some .«protected»
  | some "private" => some .«private»
  | _ => none

/-- The common fields produced by `EntityBuilder.buildBase`. -/
structure BaseFields where
  id : String
  name : String
  qualifiedName : String
  file : String
  line : Nat
  briefDescription : Option String
  detailedDescription : Option String
  visibility : Option Visibility
  deriving DecidableEq, Repr

/-- `EntityBuilder.buildBase` (`entity-builders/base.ts`); the `line`
attribute is carried already decoded to a number, so `parseInt` is not
re-modelled. -/
def buildBase (xmlNode : XmlNode) : BaseFields :=
  { id := strOr xmlNode.idAttr "",
    name := strOr xmlNode.compoundname (strOr xmlNode.name ""),
    qualifiedName :=
      strOr xmlNode.qualifiedname
        (strOr xmlNode.compoundname (strOr xmlNode.name "")),
    file := strOr xmlNode.locationFile "",
    line := xmlNode.locationLine.getD 0,
    briefDescription := extractBriefDescriptionX xmlNode.briefdescription,
    detailedDescription :=
      extractBriefDescriptionX xmlNode.detaileddescription,
    visibility := extractVisibility xmlNode }

/-- Index of the last occurrence of `"::"` in a character list
(JavaScript `lastIndexOf('::')`), `none` when there is none. -/
def lastColons (s : List Char) : Option Nat :=
  match s with
  | [] => none
  | _ :: tl =>
      match lastColons tl with
      | some i => some (i + 1)
      | none =>
          if Nifty.Search.startsWithL s [':', ':'] then some 0 else none

/-- `NamespaceEntityBuilder.extractParentNamespace`
(`namespace-builder.ts`): the part before the last `"::"`, absent when
no `"::"` occurs. -/
def extractParentNamespace (qualifiedName : String) : Option String :=
  match lastColons qualifiedName.data with
  | none => none
  | some i => some (String.mk (qualifiedName.data.take i))

/-- `NamespaceEntity` (`parser/types.ts`), with the base fields
inlined. -/
structure NamespaceEntity where
  id : String
  name : String
  qualifiedName : String
  file : String
  line : Nat
  briefDescription : Option String
  detailedDescription : Option String
  visibility : Option Visibility
  members : List MemberReference
  parentNamespace : Option String
  deriving DecidableEq, Repr

/-- `NamespaceEntityBuilder.build` (`namespace-builder.ts`). -/
def namespaceBuild (xmlNode : XmlNode) : NamespaceEntity :=
  let base := buildBase xmlNode
  { id := base.id, name := base.name, qualifiedName := base.qualifiedName,
    file := base.file, line := base.line,
    briefDescription := base.briefDescription,
    detailedDescription := base.detailedDescription,
    visibility := base.visibility,
    members := extractMembers xmlNode,
    parentNamespace :=
      extractParentNamespace (strOrS base.qualifiedName base.name) }

/-- A compound-level node with no `prot` attribute. -/
def nodeNoProt : XmlNode := { name := some "ns" }

/-- Severity of a recorded `ParseError` (`parser/types.ts`). -/
inductive Severity where
  | error
  | warning
  deriving DecidableEq, Repr

/-- A non-fatal parse error (`ParseError` in `parser/types.ts`). -/
structure ParseError where
  file : String
  entityId : Option String := none
  message : String
  severity : Severity
  deriving DecidableEq, Repr

/-- A compound descriptor from the index document (`CompoundInfo` in
`doxygen-parser.ts`). -/
structure CompoundInfo where
  refid : String
  kind : String
  name : String
  deriving DecidableEq, Repr

/-- `DoxygenParser.parseCompounds` (`doxygen-parser.ts`): sequential
per-compound parsing; a throwing `parseCompoundFile` (file read, XML
decode, building — abstracted as an `Except`-valued argument) is caught
at compound granularity, recorded with severity `error`, and the loop
continues.  The mutable `this.errors` accumulator is returned as the
second component, in push order. -/
def parseCompounds {Entity : Type}
    (parseCompoundFile : CompoundInfo → Except String (List Entity)) :
    List CompoundInfo → List Entity × List ParseError
  | [] => ([], [])
  | compound :: rest =>
      let result := parseCompounds parseCompoundFile rest
      match parseCompoundFile compound with
      | .ok compoundEntities => (compoundEntities ++ result.1, result.2)
      | .error msg =>
          (result.1,
            { file := compound.refid ++ ".xml",
              message := "Failed to parse compound: " ++ msg,
              severity := .error } :: result.2)

/-- The inner loop of `DoxygenParser.extractMembers`
(`doxygen-parser.ts`): a throwing builder dispatch (abstracted as an
`Except`-valued `build`) is caught at member granularity, recorded with
severity `warning`, and the loop continues with the next member. -/
def buildMembers {Entity : Type}
    (build : MemberDef → Except String Entity) (parentId : String) :
    List MemberDef → List Entity × List ParseError
  | [] => ([], [])
  | memberDef :: rest =>
      let result := buildMembers build parentId rest
      match build memberDef with
      | .ok member => (member :: result.1, result.2)
      | .error msg =>
          (result.1,
            { file := parentId ++ ".xml", entityId := memberDef.idAttr,
              message := "Failed to parse member: " ++ msg,
              severity := .warning } :: result.2)

/-- The outer loop of `DoxygenParser.extractMembers` over the
normalized `sectiondef` list. -/
def extractMembersOrch {Entity : Type}
    (build : MemberDef → Except String Entity) (parentId : String) :
    List Section → List Entity × List ParseError
  | [] => ([], [])
  | sec :: rest =>
      let first := buildMembers build parentId sec.memberdef
      let others := extractMembersOrch build parentId rest
      (first.1 ++ others.1, first.2 ++ others.2)

/-- Concrete per-compound parse used by the C7 witness: compound "b" is
malformed, every other compound yields one entity named after it. -/
def sampleParse (c : CompoundInfo) : Except String (List String) :=
  if c.refid = "b" then .error "bad xml" else .ok [c.name]

/-- Concrete member builder used by the C7 witness: member id "bad"
fails to build, every other member builds to its name. -/
def sampleBuild (md : MemberDef) : Except String String :=
  if md.idAttr = some "bad" then .error "unsupported kind"
  else .ok (strOr md.name "")

/-- Witness compounds: "a" and "c" are well-formed, "b" is malformed. -/
def compA : CompoundInfo := { refid := "a", kind := "class", name := "A" }

/-- The malformed witness compound. -/
def compB : CompoundInfo := { refid := "b", kind := "class", name := "B" }

/-- The second well-formed witness compound. -/
def compC : CompoundInfo := { refid := "c", kind := "class", name := "C" }

/-- Witness members: "m1" and "m2" build, "bad" fails. -/
def memb1 : MemberDef := { idAttr := some "m1", name := some "f" }

/-- The failing witness member. -/
def membBad : MemberDef := { idAttr := some "bad", name := some "g" }

/-- The second building witness member. -/
def memb2 : MemberDef := { idAttr := some "m2", name := some "h" }

end Parser
end Nifty

namespace Nifty
namespace Search

theorem startsWithL_self (l : List Char) : startsWithL l l = true := by
  induction l with
  | nil => rfl
  | cons c cs ih => simp [startsWithL, ih]

theorem ne_of_not_startsWithL {f t : List Char}
    (h : startsWithL f t = false) : f ≠ t := by
  intro he
  rw [he, startsWithL_self] at h
  exact absurd h (by decide)

theorem firstIndexOf?_of_startsWithL {f t : List Char}
    (h : startsWithL f t = true) : firstIndexOf? f t = some 0 := by
  cases f <;> simp [firstIndexOf?, h]

theorem startsWithL_length {f t : List Char}
    (h : startsWithL f t = true) : t.length ≤ f.length := by
  induction f generalizing t with
  | nil =>
      cases t with
      | nil => simp
      | cons d ds => simp [startsWithL] at h
  | cons c cs ih =>
      cases t with
      | nil => simp
      | cons d ds =>
          simp only [startsWithL, Bool.and_eq_true] at h
          simpa [List.length_cons] using ih h.2

theorem firstIndexOf?_length {f t : List Char} {p : ℕ}
    (h : firstIndexOf? f t = some p) : p + t.length ≤ f.length := by
  induction f generalizing p with
  | nil =>
      unfold firstIndexOf? at h
      by_cases hs : startsWithL [] t
      · simp [hs] at h
        subst h
        simpa using startsWithL_length hs
      · simp [hs] at h
  | cons c cs ih =>
      unfold firstIndexOf? at h
      by_cases hs : startsWithL (c :: cs) t
      · simp [hs] at h
        subst h
        simpa using startsWithL_length hs
      · simp only [hs, Bool.false_eq_true, if_false, Option.map_eq_some'] at h
        obtain ⟨q, hq, rfl⟩ := h
        have := ih hq
        simp only [List.length_cons]
        omega

theorem firstIndexOf?_pos {f t : List Char} {p : ℕ}
    (h1 : startsWithL f t = false) (h2 : firstIndexOf? f t = some p) :
    1 ≤ p := by
  cases f with
  | nil => simp [firstIndexOf?, h1] at h2
  | cons c cs =>
      unfold firstIndexOf? at h2
      simp only [h1, Bool.false_eq_true, if_false, Option.map_eq_some'] at h2
      obtain ⟨q, _, rfl⟩ := h2
      omega

theorem scoreField_of_eq {f t : List Char} (fn : String) (ex : Bool)
    (h : f = t) : scoreField f t fn ex
      = some { fieldName := fn, matchType := .exact, score := 1 } := by
  simp [scoreField, h]

theorem scoreField_of_starts {f t : List Char} (fn : String)
    (h1 : f ≠ t) (h2 : startsWithL f t = true) :
    scoreField f t fn false
      = some { fieldName := fn, matchType := .starts, score := 9/10 } := by
  simp [scoreField, h1, h2]

theorem scoreField_of_substring {f t : List Char} (fn : String) {p : ℕ}
    (h1 : f ≠ t) (h2 : startsWithL f t = false)
    (h3 : firstIndexOf? f t = some p) :
    scoreField f t fn false
      = some { fieldName := fn, matchType := .substring,
               score := substringScore p f.length } := by
  simp [scoreField, h1, h2, h3]

theorem scoreField_of_no_occurrence {f t : List Char} (fn : String)
    (h3 : firstIndexOf? f t = none) :
    scoreField f t fn false = none := by
  have h2 : startsWithL f t = false := by
    by_contra h
    rw [firstIndexOf?_of_startsWithL (by simpa using h)] at h3
    cases h3
  have h1 : f ≠ t := ne_of_not_startsWithL h2
  simp [scoreField, h1, h2, h3]

theorem substringScore_lower {p L : ℕ} (hpL : p ≤ L) (hL : 0 < L) :
    1/2 ≤ substringScore p L := by
  unfold substringScore
  have hL' : (0 : ℚ) < (L : ℚ) := by exact_mod_cast hL
  have h1 : (p : ℚ) / (L : ℚ) ≤ 1 := by
    rw [div_le_one hL']
    exact_mod_cast hpL
  nlinarith

theorem substringScore_upper (p L : ℕ) : substringScore p L ≤ 4/5 := by
  unfold substringScore
  have h0 : (0 : ℚ) ≤ (p : ℚ) / (L : ℚ) := by positivity
  nlinarith

theorem substringScore_strict_anti {p q L : ℕ} (hL : 0 < L) (hpq : p < q) :
    substringScore q L < substringScore p L := by
  unfold substringScore
  have hL' : (0 : ℚ) < (L : ℚ) := by exact_mod_cast hL
  have hpq' : (p : ℚ) < (q : ℚ) := by exact_mod_cast hpq
  have h2 : (p : ℚ) / (L : ℚ) < (q : ℚ) / (L : ℚ) :=
    (div_lt_div_iff_of_pos_right hL').mpr hpq'
  nlinarith

theorem result_of_if_empty {mf : List MatchedField} {ts : ℚ}
    {e : DoxygenEntity} {r : SearchResult}
    (h : (if mf = [] then none
          else some { entity := e, relevance := min ts 1,
                      matchedFields := mf }) = some r) :
    r.entity = e ∧ r.relevance ≤ 1 ∧ r.matchedFields ≠ [] := by
  by_cases hmf : mf = []
  · simp [hmf] at h
  · rw [if_neg hmf] at h
    cases h
    exact ⟨rfl, min_le_right _ _, hmf⟩

theorem scoreEntity_some {opts : SearchOptions} {e : DoxygenEntity}
    {t : List Char} {q : SearchQuery} {r : SearchResult}
    (h : scoreEntity opts e t q = some r) :
    r.entity = e ∧ r.relevance ≤ 1 ∧ r.matchedFields ≠ [] := by
  dsimp only [scoreEntity] at h
  exact result_of_if_empty h

theorem filter_insertDesc (q : ℚ) (r : SearchResult)
    (l : List SearchResult) :
    (insertDesc r l).filter (fun s => decide (s.relevance = q))
      = (r :: l).filter (fun s => decide (s.relevance = q)) := by
  induction l with
  | nil => simp [insertDesc]
  | cons x xs ih =>
      by_cases h : x.relevance ≤ r.relevance
      · simp [insertDesc, h]
      · simp only [insertDesc, if_neg h]
        by_cases pr : r.relevance = q
        · have px : ¬ x.relevance = q := fun hx =>
            h (by rw [hx, pr])
          simp [List.filter_cons, pr, px, ih]
        · simp [List.filter_cons, pr, ih]

theorem filter_sortDesc (q : ℚ) (l : List SearchResult) :
    (sortDesc l).filter (fun s => decide (s.relevance = q))
      = l.filter (fun s => decide (s.relevance = q)) := by
  induction l with
  | nil => rfl
  | cons r rest ih =>
      simp only [sortDesc]
      rw [filter_insertDesc, List.filter_cons, List.filter_cons, ih]

theorem filterMap_map_entity_sublist (g : DoxygenEntity → Option SearchResult)
    (hg : ∀ e r, g e = some r → r.entity = e) (l : List DoxygenEntity) :
    ((l.filterMap g).map (fun r => r.entity)).Sublist l := by
  induction l with
  | nil => simp
  | cons e es ih =>
      cases hge : g e with
      | none =>
          rw [List.filterMap_cons, hge]
          exact List.Sublist.cons e ih
      | some r =>
          rw [List.filterMap_cons, hge, List.map_cons, hg e r hge]
          exact List.Sublist.cons₂ e ih

theorem scoredResults_entity {opts : SearchOptions}
    {q : SearchQuery} (e : DoxygenEntity) (r : SearchResult)
    (h : (match scoreEntity opts e (normalizeTerm opts q) q with
          | some r => if 0 < r.relevance then some r else none
          | none => none) = some r) :
    r.entity = e := by
  cases hse : scoreEntity opts e (normalizeTerm opts q) q with
  | none => rw [hse] at h; cases h
  | some r' =>
      rw [hse] at h
      by_cases hrel : 0 < r'.relevance
      · simp only [hrel, if_true] at h
        cases h
        exact (scoreEntity_some hse).1
      · simp [hrel] at h

theorem mem_insertDesc {x r : SearchResult} {l : List SearchResult}
    (h : x ∈ insertDesc r l) : x = r ∨ x ∈ l := by
  induction l with
  | nil => simpa [insertDesc] using h
  | cons y ys ih =>
      by_cases hc : y.relevance ≤ r.relevance
      · simpa [insertDesc, hc, List.mem_cons] using h
      · simp only [insertDesc, if_neg hc, List.mem_cons] at h
        rcases h with h | h
        · exact Or.inr (List.mem_cons.mpr (Or.inl h))
        · rcases ih h with h | h
          · exact Or.inl h
          · exact Or.inr (List.mem_cons.mpr (Or.inr h))

theorem mem_sortDesc {x : SearchResult} {l : List SearchResult}
    (h : x ∈ sortDesc l) : x ∈ l := by
  induction l with
  | nil => simp [sortDesc] at h
  | cons r rest ih =>
      rcases mem_insertDesc (by simpa [sortDesc] using h) with h' | h'
      · exact List.mem_cons.mpr (Or.inl h')
      · exact List.mem_cons.mpr (Or.inr (ih h'))

theorem mem_scoredResults {opts : SearchOptions} {es : List DoxygenEntity}
    {q : SearchQuery} {r : SearchResult}
    (h : r ∈ scoredResults opts es q) :
    r.relevance ≤ 1 ∧ r.matchedFields ≠ [] ∧ 0 < r.relevance := by
  unfold scoredResults at h
  rw [List.mem_filterMap] at h
  obtain ⟨e, _, hge⟩ := h
  cases hse : scoreEntity opts e (normalizeTerm opts q) q with
  | none => rw [hse] at hge; cases hge
  | some r' =>
      rw [hse] at hge
      by_cases hrel : 0 < r'.relevance
      · simp only [hrel, if_true] at hge
        cases hge
        exact ⟨(scoreEntity_some hse).2.1, (scoreEntity_some hse).2.2, hrel⟩
      · simp [hrel] at hge

theorem candidateEntities_sublist (es : List DoxygenEntity)
    (q : SearchQuery) : (candidateEntities es q).Sublist es := by
  unfold candidateEntities
  cases q.entityTypes with
  | none => exact List.Sublist.refl es
  | some ts =>
      by_cases h : ts = []
      · simp [h]
      · simp only [h, if_true, ne_eq, not_false_iff, if_pos]
        exact List.filter_sublist es

theorem scoreEntity_none {opts : SearchOptions} {e : DoxygenEntity}
    {t : List Char} {q : SearchQuery}
    (hname : scoreField (normalizeChars opts.caseSensitive e.name) t "name"
      (q.exactMatch.getD false) = none)
    (hqual : scoreField (normalizeChars opts.caseSensitive e.qualifiedName)
      t "qualifiedName" (q.exactMatch.getD false) = none)
    (hdesc : ∀ d, e.briefDescription = some d → d ≠ [] →
      scoreField (normalizeChars opts.caseSensitive d) t
        "briefDescription" false = none) :
    scoreEntity opts e t q = none := by
  dsimp only [scoreEntity]
  rw [hname, hqual]
  cases hbd : e.briefDescription with
  | none => simp
  | some d =>
      by_cases hd : d = []
      · simp [hd]
      · by_cases hinc : opts.includeDescriptions = true
        · simp [hinc, hd, hdesc d hbd hd]
        · simp [hinc]

theorem scoreEntity_entA :
    scoreEntity sampleOpts entA ['a'] queryA = some resultA := by
  simp only [scoreEntity, sampleOpts, entA, queryA, resultA, scoreField,
    normalizeChars, Option.getD_none, Option.toList_some, Option.map_some]
  norm_num
  exact fun h => absurd h (List.cons_ne_nil _ _)

theorem search_entA :
    search sampleOpts [entA] queryA = [resultA] := by
  have hterm : normalizeTerm sampleOpts queryA = ['a'] := by
    simp [normalizeTerm, sampleOpts, queryA]
  have hcand : candidateEntities [entA] queryA = [entA] := by
    simp [candidateEntities, queryA]
  have hscored : scoredResults sampleOpts [entA] queryA = [resultA] := by
    unfold scoredResults
    rw [hcand, hterm]
    simp only [List.filterMap_cons, List.filterMap_nil, scoreEntity_entA]
    norm_num [resultA]
  unfold search
  rw [hscored]
  simp [sortDesc, insertDesc, effectiveMax, sampleOpts, queryA]

end Search
end Nifty

/-- C1: In the Simple engine's per-field scoring, for every field value
and non-empty query term (after case normalization): exact equality
scores exactly 1.0; a proper prefix match scores exactly 0.9; a
substring match at position p in a field of length L scores
0.5 + 0.3 × (1 − p/L), which always lies within [0.5, 0.8] and is
strictly decreasing as p increases for a fixed field length; a field
containing no occurrence of the term contributes no match. -/
theorem C1_scoreField_tiers (f t : List Char) (fn : String)
    (ht : t ≠ []) :
    (f = t →
      Nifty.Search.scoreField f t fn false
        = some { fieldName := fn, matchType := .exact, score := 1 })
    ∧ (Nifty.Search.startsWithL f t = true → f ≠ t →
      Nifty.Search.scoreField f t fn false
        = some { fieldName := fn, matchType := .starts, score := 9/10 })
    ∧ (∀ p : ℕ, Nifty.Search.startsWithL f t = false →
        Nifty.Search.firstIndexOf? f t = some p →
      Nifty.Search.scoreField f t fn false
        = some { fieldName := fn, matchType := .substring,
                 score := Nifty.Search.substringScore p f.length }
      ∧ 1/2 ≤ Nifty.Search.substringScore p f.length
      ∧ Nifty.Search.substringScore p f.length ≤ 4/5)
    ∧ (Nifty.Search.firstIndexOf? f t = none →
      Nifty.Search.scoreField f t fn false = none)
    ∧ (∀ p q L : ℕ, 0 < L → p < q →
      Nifty.Search.substringScore q L < Nifty.Search.substringScore p L) := by
  refine ⟨fun h => Nifty.Search.scoreField_of_eq fn false h,
    fun h2 h1 => Nifty.Search.scoreField_of_starts fn h1 h2,
    fun p h2 h3 => ?_,
    fun h3 => Nifty.Search.scoreField_of_no_occurrence fn h3,
    fun p q L hL hpq => Nifty.Search.substringScore_strict_anti hL hpq⟩
  have h1 : f ≠ t := Nifty.Search.ne_of_not_startsWithL h2
  have hlen : p + t.length ≤ f.length := Nifty.Search.firstIndexOf?_length h3
  have htlen : 1 ≤ t.length := by
    cases t with
    | nil => exact absurd rfl ht
    | cons d ds => simp
  have hpL : p ≤ f.length := by omega
  have hL : 0 < f.length := by omega
  exact ⟨Nifty.Search.scoreField_of_substring fn h1 h2 h3,
    Nifty.Search.substringScore_lower hpL hL,
    Nifty.Search.substringScore_upper p f.length⟩

/-- C1 witness: the theorem applied to field "draw" and term "raw",
whose first occurrence is at position 1 of 4. -/
theorem C1_witness :
    (['r','a','w'] : List Char) ≠ []
    ∧ ((['d','r','a','w'] : List Char) = ['r','a','w'] →
      Nifty.Search.scoreField ['d','r','a','w'] ['r','a','w'] "name" false
        = some { fieldName := "name", matchType := .exact, score := 1 })
    ∧ (Nifty.Search.startsWithL ['d','r','a','w'] ['r','a','w'] = true →
        (['d','r','a','w'] : List Char) ≠ ['r','a','w'] →
      Nifty.Search.scoreField ['d','r','a','w'] ['r','a','w'] "name" false
        = some { fieldName := "name", matchType := .starts, score := 9/10 })
    ∧ (∀ p : ℕ,
        Nifty.Search.startsWithL ['d','r','a','w'] ['r','a','w'] = false →
        Nifty.Search.firstIndexOf? ['d','r','a','w'] ['r','a','w'] = some p →
      Nifty.Search.scoreField ['d','r','a','w'] ['r','a','w'] "name" false
        = some { fieldName := "name", matchType := .substring,
                 score := Nifty.Search.substringScore p
                   (['d','r','a','w'] : List Char).length }
      ∧ 1/2 ≤ Nifty.Search.substringScore p
          (['d','r','a','w'] : List Char).length
      ∧ Nifty.Search.substringScore p
          (['d','r','a','w'] : List Char).length ≤ 4/5)
    ∧ (Nifty.Search.firstIndexOf? ['d','r','a','w'] ['r','a','w'] = none →
      Nifty.Search.scoreField ['d','r','a','w'] ['r','a','w'] "name" false
        = none)
    ∧ (∀ p q L : ℕ, 0 < L → p < q →
      Nifty.Search.substringScore q L < Nifty.Search.substringScore p L) :=
  ⟨by decide, C1_scoreField_tiers ['d','r','a','w'] ['r','a','w'] "name"
    (by decide)⟩

/-- C2: For every loaded snapshot and query, whenever two entities
receive equal relevance from the Simple engine, their relative order in
the returned results equals their relative order in the loaded entity
snapshot: the descending-relevance sort is stable (filtering at any
relevance value commutes with it), and the equal-relevance slice of the
returned results is a subsequence of the snapshot. -/
theorem C2_stable_sort (opts : Nifty.Search.SearchOptions)
    (entities : List Nifty.Search.DoxygenEntity)
    (query : Nifty.Search.SearchQuery) (q : ℚ) :
    ((Nifty.Search.sortDesc
        (Nifty.Search.scoredResults opts entities query)).filter
          (fun s => decide (s.relevance = q))
      = (Nifty.Search.scoredResults opts entities query).filter
          (fun s => decide (s.relevance = q)))
    ∧ (((Nifty.Search.search opts entities query).filter
          (fun s => decide (s.relevance = q))).map
            (fun r => r.entity)).Sublist entities := by
  constructor
  · exact Nifty.Search.filter_sortDesc q _
  · have h1 : ((Nifty.Search.search opts entities query).filter
        (fun s => decide (s.relevance = q))).Sublist
        ((Nifty.Search.sortDesc
          (Nifty.Search.scoredResults opts entities query)).filter
            (fun s => decide (s.relevance = q))) :=
      List.Sublist.filter _ (List.take_sublist _ _)
    rw [Nifty.Search.filter_sortDesc q _] at h1
    have h2 := h1.trans (List.filter_sublist _)
    have h4 := h2.map (fun r => r.entity)
    have h5 : (((Nifty.Search.candidateEntities entities query).filterMap
        (fun e =>
          match Nifty.Search.scoreEntity opts e
              (Nifty.Search.normalizeTerm opts query) query with
          | some r => if 0 < r.relevance then some r else none
          | none => none)).map
            (fun r => r.entity)).Sublist
        (Nifty.Search.candidateEntities entities query) :=
      Nifty.Search.filterMap_map_entity_sublist _
        (fun e r h => Nifty.Search.scoredResults_entity e r h) _
    exact h4.trans
      (h5.trans (Nifty.Search.candidateEntities_sublist entities query))

/-- C6: For every entity and every query, the relevance of a
Simple-engine search result is at most 1.0 (and every returned result
matched at least one field), and an entity none of whose scored fields
matches is excluded from the results entirely (its score is `none`). -/
theorem C6_relevance_capped (opts : Nifty.Search.SearchOptions)
    (es : List Nifty.Search.DoxygenEntity) (q : Nifty.Search.SearchQuery)
    (r : Nifty.Search.SearchResult) (e : Nifty.Search.DoxygenEntity)
    (t : List Char) (qq : Nifty.Search.SearchQuery)
    (hr : r ∈ Nifty.Search.search opts es q)
    (hname : Nifty.Search.scoreField
      (Nifty.Search.normalizeChars opts.caseSensitive e.name) t "name"
      (qq.exactMatch.getD false) = none)
    (hqual : Nifty.Search.scoreField
      (Nifty.Search.normalizeChars opts.caseSensitive e.qualifiedName) t
      "qualifiedName" (qq.exactMatch.getD false) = none)
    (hdesc : ∀ d, e.briefDescription = some d → d ≠ [] →
      Nifty.Search.scoreField
        (Nifty.Search.normalizeChars opts.caseSensitive d) t
        "briefDescription" false = none) :
    (r.relevance ≤ 1 ∧ r.matchedFields ≠ [])
    ∧ Nifty.Search.scoreEntity opts e t qq = none := by
  constructor
  · have h1 : r ∈ Nifty.Search.sortDesc
        (Nifty.Search.scoredResults opts es q) :=
      List.mem_of_mem_take hr
    have h2 := Nifty.Search.mem_sortDesc h1
    have h3 := Nifty.Search.mem_scoredResults h2
    exact ⟨h3.1, h3.2.1⟩
  · exact Nifty.Search.scoreEntity_none hname hqual hdesc

/-- C6 witness: the theorem applied at a concrete snapshot, query and
non-matching entity. -/
theorem C6_witness :
    Nifty.Search.resultA ∈ Nifty.Search.search Nifty.Search.sampleOpts
      [Nifty.Search.entA] Nifty.Search.queryA
    ∧ Nifty.Search.scoreField
        (Nifty.Search.normalizeChars Nifty.Search.sampleOpts.caseSensitive
          Nifty.Search.entB.name) ['a'] "name"
        (Nifty.Search.queryA.exactMatch.getD false) = none
    ∧ Nifty.Search.scoreField
        (Nifty.Search.normalizeChars Nifty.Search.sampleOpts.caseSensitive
          Nifty.Search.entB.qualifiedName) ['a'] "qualifiedName"
        (Nifty.Search.queryA.exactMatch.getD false) = none
    ∧ ((Nifty.Search.resultA.relevance ≤ 1
        ∧ Nifty.Search.resultA.matchedFields ≠ [])
      ∧ Nifty.Search.scoreEntity Nifty.Search.sampleOpts Nifty.Search.entB
          ['a'] Nifty.Search.queryA = none) := by
  have hm : Nifty.Search.resultA ∈ Nifty.Search.search
      Nifty.Search.sampleOpts [Nifty.Search.entA] Nifty.Search.queryA := by
    rw [Nifty.Search.search_entA]
    exact List.mem_cons_self _ _
  have hname : Nifty.Search.scoreField
      (Nifty.Search.normalizeChars Nifty.Search.sampleOpts.caseSensitive
        Nifty.Search.entB.name) ['a'] "name"
      (Nifty.Search.queryA.exactMatch.getD false) = none := by
    simp [Nifty.Search.scoreField, Nifty.Search.startsWithL,
      Nifty.Search.firstIndexOf?, Nifty.Search.normalizeChars,
      Nifty.Search.sampleOpts, Nifty.Search.entB, Nifty.Search.queryA]
  have hqual : Nifty.Search.scoreField
      (Nifty.Search.normalizeChars Nifty.Search.sampleOpts.caseSensitive
        Nifty.Search.entB.qualifiedName) ['a'] "qualifiedName"
      (Nifty.Search.queryA.exactMatch.getD false) = none := by
    simp [Nifty.Search.scoreField, Nifty.Search.startsWithL,
      Nifty.Search.firstIndexOf?, Nifty.Search.normalizeChars,
      Nifty.Search.sampleOpts, Nifty.Search.entB, Nifty.Search.queryA]
  have hdesc : ∀ d, Nifty.Search.entB.briefDescription = some d → d ≠ [] →
      Nifty.Search.scoreField
        (Nifty.Search.normalizeChars Nifty.Search.sampleOpts.caseSensitive d)
        ['a'] "briefDescription" false = none := by
    intro d hd
    simp [Nifty.Search.entB] at hd
  exact ⟨hm, hname, hqual,
    C6_relevance_capped Nifty.Search.sampleOpts [Nifty.Search.entA]
      Nifty.Search.queryA Nifty.Search.resultA Nifty.Search.entB ['a']
      Nifty.Search.queryA hm hname hqual hdesc⟩

namespace Nifty
namespace Search

theorem startsWithL_nil (f : List Char) : startsWithL f [] = true := by
  cases f <;> rfl

theorem scoreField_nil_term (f : List Char) (fn : String) :
    scoreField f [] fn false
      = some { fieldName := fn,
               matchType := if f = [] then .exact else .starts,
               score := if f = [] then 1 else 9/10 } := by
  by_cases hf : f = []
  · simp [scoreField, hf]
  · simp [scoreField, hf, startsWithL_nil]

theorem scoreField_nil_score {f : List Char} {fn : String}
    {mf : MatchedField} (h : scoreField f [] fn false = some mf) :
    0 ≤ mf.score := by
  rw [scoreField_nil_term] at h
  cases h
  dsimp only
  split_ifs <;> norm_num

theorem scoreEntity_nil_term (opts : SearchOptions) (e : DoxygenEntity)
    (q : SearchQuery) (hexact : q.exactMatch.getD false = false) :
    ∃ r, scoreEntity opts e [] q = some r ∧ 9/10 ≤ r.relevance := by
  dsimp only [scoreEntity]
  rw [hexact, scoreField_nil_term, scoreField_nil_term]
  have h1 : (9:ℚ)/10
      ≤ (if normalizeChars opts.caseSensitive e.name = [] then (1:ℚ)
         else 9/10) := by
    split_ifs <;> norm_num
  have h2 : (0:ℚ)
      ≤ (if normalizeChars opts.caseSensitive e.qualifiedName = [] then (1:ℚ)
         else 9/10) := by
    split_ifs <;> norm_num
  by_cases hi : opts.includeDescriptions = true
  · cases hb : e.briefDescription with
    | none =>
        simp only [hi, if_true, Option.toList_some, Option.toList_none,
          Option.map_some, Option.map_none, Option.getD_some,
          Option.getD_none, List.cons_append, List.nil_append,
          List.append_nil]
        rw [if_neg (List.cons_ne_nil _ _)]
        refine ⟨_, rfl, ?_⟩
        dsimp only
        refine le_min ?_ (by norm_num)
        split_ifs <;> norm_num
    | some d =>
        by_cases hd : d = []
        · subst hd
          simp only [hi, if_true, if_pos rfl, Option.toList_some,
            Option.toList_none, Option.map_some, Option.map_none,
            Option.getD_some, Option.getD_none, List.cons_append,
            List.nil_append, List.append_nil]
          rw [if_neg (List.cons_ne_nil _ _)]
          refine ⟨_, rfl, ?_⟩
          dsimp only
          refine le_min ?_ (by norm_num)
          split_ifs <;> norm_num
        · simp only [hi, if_true, hd, if_false, scoreField_nil_term,
            Option.toList_some, Option.map_some, Option.getD_some,
            List.cons_append, List.nil_append, List.append_nil]
          rw [if_neg (List.cons_ne_nil _ _)]
          refine ⟨_, rfl, ?_⟩
          dsimp only
          refine le_min ?_ (by norm_num)
          split_ifs <;> norm_num
  · simp only [hi, if_false, Option.toList_some, Option.toList_none,
      Option.map_some, Option.map_none, Option.getD_some, Option.getD_none,
      List.cons_append, List.nil_append, List.append_nil]
    rw [if_neg (List.cons_ne_nil _ _)]
    refine ⟨_, rfl, ?_⟩
    dsimp only
    refine le_min ?_ (by norm_num)
    split_ifs <;> try contradiction
    all_goals norm_num

theorem scoredResults_nil_term (opts : SearchOptions)
    (es : List DoxygenEntity) (q : SearchQuery) (hterm : q.term = [])
    (hexact : q.exactMatch.getD false = false) :
    (scoredResults opts es q).length = (candidateEntities es q).length
    ∧ ∀ r ∈ scoredResults opts es q, 9/10 ≤ r.relevance := by
  have hnt : normalizeTerm opts q = [] := by
    simp [normalizeTerm, hterm]
  unfold scoredResults
  rw [hnt]
  generalize candidateEntities es q = l
  induction l with
  | nil => simp
  | cons e es' ih =>
      obtain ⟨r, hr, hrel⟩ := scoreEntity_nil_term opts e q hexact
      have h0 : 0 < r.relevance := lt_of_lt_of_le (by norm_num) hrel
      refine ⟨?_, ?_⟩
      · simp [List.filterMap_cons, hr, h0, ih.1]
      · intro x hx
        simp only [List.filterMap_cons, hr, h0, if_true,
          List.mem_cons] at hx
        rcases hx with hx | hx
        · rw [hx]; exact hrel
        · exact ih.2 x hx

end Search
end Nifty

/-- C10: In the Simple engine with exact-match-only off, an empty query
term matches every candidate entity: every scored field hits either the
exact tier (score 1.0, empty field) or the starts-with tier (score 0.9),
no candidate entity is excluded by scoring, and every scored result has
relevance at least 0.9. -/
theorem C10_empty_term_matches_all (opts : Nifty.Search.SearchOptions)
    (es : List Nifty.Search.DoxygenEntity) (q : Nifty.Search.SearchQuery)
    (hterm : q.term = []) (hexact : q.exactMatch.getD false = false) :
    (∀ (f : List Char) (fn : String),
      Nifty.Search.scoreField f (Nifty.Search.normalizeTerm opts q) fn false
        = some { fieldName := fn,
                 matchType := if f = [] then .exact else .starts,
                 score := if f = [] then 1 else 9/10 })
    ∧ (Nifty.Search.scoredResults opts es q).length
        = (Nifty.Search.candidateEntities es q).length
    ∧ ∀ r ∈ Nifty.Search.scoredResults opts es q, 9/10 ≤ r.relevance := by
  have hnt : Nifty.Search.normalizeTerm opts q = [] := by
    simp [Nifty.Search.normalizeTerm, hterm]
  refine ⟨?_, Nifty.Search.scoredResults_nil_term opts es q hterm hexact⟩
  intro f fn
  rw [hnt]
  exact Nifty.Search.scoreField_nil_term f fn

/-- C10 witness: the theorem applied to a one-entity snapshot and the
empty query term. -/
theorem C10_witness :
    ({ term := [] } : Nifty.Search.SearchQuery).term = []
    ∧ (({ term := [] } : Nifty.Search.SearchQuery).exactMatch.getD false
        = false)
    ∧ ((Nifty.Search.scoredResults Nifty.Search.sampleOpts
          [Nifty.Search.entA] { term := [] }).length
        = (Nifty.Search.candidateEntities [Nifty.Search.entA]
            { term := [] }).length
      ∧ ∀ r ∈ Nifty.Search.scoredResults Nifty.Search.sampleOpts
          [Nifty.Search.entA] { term := [] }, 9/10 ≤ r.relevance) :=
  ⟨rfl, rfl,
    (C10_empty_term_matches_all Nifty.Search.sampleOpts
      [Nifty.Search.entA] { term := [] } rfl rfl).2⟩

namespace Nifty
namespace Search

theorem result_of_if_empty_eq {mf : List MatchedField} {ts : ℚ}
    {e : DoxygenEntity} {r : SearchResult}
    (h : (if mf = [] then none
          else some { entity := e, relevance := min ts 1,
                      matchedFields := mf }) = some r) :
    r = { entity := e, relevance := min ts 1, matchedFields := mf } := by
  by_cases hmf : mf = []
  · simp [hmf] at h
  · rw [if_neg hmf] at h
    exact (Option.some.inj h).symm

theorem scoreField_exact_tier_only {f t : List Char} {fn : String}
    {mf : MatchedField} (h : scoreField f t fn true = some mf) :
    mf.matchType = .exact ∧ mf.fieldName = fn := by
  by_cases he : f = t
  · rw [scoreField_of_eq fn true he] at h
    cases h
    exact ⟨rfl, rfl⟩
  · simp [scoreField, he] at h

theorem scoreField_sets_fieldName {f t : List Char} {fn : String}
    {ex : Bool} {mf : MatchedField} (h : scoreField f t fn ex = some mf) :
    mf.fieldName = fn := by
  unfold scoreField at h
  split_ifs at h
  · cases h; rfl
  · cases h; rfl
  · revert h
    cases firstIndexOf? f t with
    | none => intro h; cases h
    | some p => intro h; cases h; rfl

theorem scoreField_not_eq_none {f t : List Char} (fn : String)
    (h : f ≠ t) : scoreField f t fn true = none := by
  simp [scoreField, h]

theorem scoreEntity_matchedFields {opts : SearchOptions}
    {e : DoxygenEntity} {t : List Char} {q : SearchQuery} {r : SearchResult}
    (h : scoreEntity opts e t q = some r) :
    r.matchedFields =
      (scoreField (normalizeChars opts.caseSensitive e.name) t "name"
        (q.exactMatch.getD false)).toList
      ++ (scoreField (normalizeChars opts.caseSensitive e.qualifiedName) t
        "qualifiedName" (q.exactMatch.getD false)).toList
      ++ (if opts.includeDescriptions = true then
            match e.briefDescription with
            | some d =>
                if d = [] then none
                else scoreField (normalizeChars opts.caseSensitive d) t
                  "briefDescription" false
            | none => none
          else none).toList := by
  dsimp only [scoreEntity] at h
  rw [result_of_if_empty_eq h]

end Search
end Nifty

/-- C5 counterexample: with exact-match-only requested, the entity whose
only occurrence of the term "b" is in its `briefDescription` ("ba", not
exactly equal to "b") still matches — the description is scored with the
starts-with tier (0.9), because `scoreEntity` always passes
exact-match-off for descriptions.  This refutes the claim that under
exact-match-only every non-equal field contributes no match. -/
theorem C5_counterexample :
    (Nifty.Search.queryBExact.exactMatch.getD false = true)
    ∧ Nifty.Search.scoreEntity Nifty.Search.sampleOpts Nifty.Search.entC
        ['b'] Nifty.Search.queryBExact
      = some { entity := Nifty.Search.entC, relevance := 27/100,
               matchedFields :=
                 [ { fieldName := "briefDescription",
                     matchType := .starts, score := 9/10 } ] } := by
  constructor
  · rfl
  · simp +decide only [Nifty.Search.scoreEntity, Nifty.Search.sampleOpts,
      Nifty.Search.entC, Nifty.Search.queryBExact, Nifty.Search.scoreField,
      Nifty.Search.normalizeChars, Nifty.Search.startsWithL,
      Nifty.Search.firstIndexOf?, Option.getD_some, Option.toList_some,
      Option.toList_none, Option.map_some, Option.map_none,
      Option.getD_none, List.nil_append, List.append_nil,
      List.cons_append]
    norm_num

/-- C5 amended: in the Simple engine with exact-match-only requested,
the exact-equality tier is the only tier tried for the `name` and
`qualifiedName` fields — a non-equal field value scores `none`, and any
matched field of a result other than `briefDescription` is an exact
match; `briefDescription`, however, is deliberately always scored with
exact-match off, so it can still contribute lower-tier matches. -/
theorem C5_exact_match_names_only (fv t : List Char) (fn : String)
    (opts : Nifty.Search.SearchOptions) (e : Nifty.Search.DoxygenEntity)
    (tq : List Char) (q : Nifty.Search.SearchQuery)
    (r : Nifty.Search.SearchResult) (mf : Nifty.Search.MatchedField)
    (h1 : fv ≠ t) (h2 : q.exactMatch.getD false = true)
    (h3 : Nifty.Search.scoreEntity opts e tq q = some r)
    (h4 : mf ∈ r.matchedFields)
    (h5 : mf.fieldName ≠ "briefDescription") :
    Nifty.Search.scoreField fv t fn true = none
    ∧ mf.matchType = Nifty.Search.MatchType.exact := by
  refine ⟨Nifty.Search.scoreField_not_eq_none fn h1, ?_⟩
  rw [Nifty.Search.scoreEntity_matchedFields h3] at h4
  rw [List.append_assoc, List.mem_append] at h4
  rcases h4 with h4 | h4
  · rw [Option.mem_toList, Option.mem_def] at h4
    rw [h2] at h4
    exact (Nifty.Search.scoreField_exact_tier_only h4).1
  · rw [List.mem_append] at h4
    rcases h4 with h4 | h4
    · rw [Option.mem_toList, Option.mem_def] at h4
      rw [h2] at h4
      exact (Nifty.Search.scoreField_exact_tier_only h4).1
    · exfalso
      apply h5
      rw [Option.mem_toList, Option.mem_def] at h4
      revert h4
      split_ifs with hi
      · cases hb : e.briefDescription with
        | none => intro h4; cases h4
        | some d =>
            dsimp only
            by_cases hd : d = []
            · simp [hd]
            · rw [if_neg hd]
              intro h4
              exact Nifty.Search.scoreField_sets_fieldName h4
      · intro h4; cases h4

namespace Nifty
namespace Search

theorem scoreEntity_entA_gen (opts : SearchOptions)
    (hcs : opts.caseSensitive = true) (q : SearchQuery) :
    scoreEntity opts entA ['a'] q = some resultA := by
  simp only [scoreEntity, hcs, entA, resultA, scoreField, normalizeChars,
    Option.toList_some, Option.map_some, if_true]
  norm_num
  exact fun h => absurd h (List.cons_ne_nil _ _)

theorem search_capped :
    search cappedOpts [entA, entA] queryMax2 = [resultA, resultA] := by
  have hterm : normalizeTerm cappedOpts queryMax2 = ['a'] := by
    simp [normalizeTerm, cappedOpts, queryMax2]
  have hcand : candidateEntities [entA, entA] queryMax2 = [entA, entA] := by
    simp [candidateEntities, queryMax2]
  have hscored : scoredResults cappedOpts [entA, entA] queryMax2
      = [resultA, resultA] := by
    unfold scoredResults
    rw [hcand, hterm]
    simp only [List.filterMap_cons, List.filterMap_nil,
      scoreEntity_entA_gen cappedOpts rfl queryMax2]
    norm_num [resultA]
  unfold search
  rw [hscored]
  simp [sortDesc, insertDesc, effectiveMax, cappedOpts, queryMax2]

end Search
end Nifty

/-- C5 witness: the amended theorem applied at the non-matching field
"f" versus term "b", and at `entA` searched exactly for "a", whose
matched field "name" is an exact match. -/
theorem C5_witness :
    (['f'] : List Char) ≠ ['b']
    ∧ Nifty.Search.queryAExact.exactMatch.getD false = true
    ∧ Nifty.Search.scoreEntity Nifty.Search.sampleOpts Nifty.Search.entA
        ['a'] Nifty.Search.queryAExact = some Nifty.Search.resultA
    ∧ ({ fieldName := "name", matchType := .exact, score := 1 }
        : Nifty.Search.MatchedField) ∈ Nifty.Search.resultA.matchedFields
    ∧ ("name" : String) ≠ "briefDescription"
    ∧ (Nifty.Search.scoreField ['f'] ['b'] "name" true = none
      ∧ ({ fieldName := "name", matchType := .exact, score := 1 }
          : Nifty.Search.MatchedField).matchType
        = Nifty.Search.MatchType.exact) := by
  have h1 : (['f'] : List Char) ≠ ['b'] := by decide
  have h2 : Nifty.Search.queryAExact.exactMatch.getD false = true := rfl
  have h3 : Nifty.Search.scoreEntity Nifty.Search.sampleOpts
      Nifty.Search.entA ['a'] Nifty.Search.queryAExact
      = some Nifty.Search.resultA :=
    Nifty.Search.scoreEntity_entA_gen Nifty.Search.sampleOpts rfl
      Nifty.Search.queryAExact
  have h4 : ({ fieldName := "name", matchType := .exact, score := 1 }
      : Nifty.Search.MatchedField)
      ∈ Nifty.Search.resultA.matchedFields := by
    simp [Nifty.Search.resultA]
  have h5 : ("name" : String) ≠ "briefDescription" := by decide
  exact ⟨h1, h2, h3, h4, h5,
    C5_exact_match_names_only ['f'] ['b'] "name" Nifty.Search.sampleOpts
      Nifty.Search.entA ['a'] Nifty.Search.queryAExact
      Nifty.Search.resultA _ h1 h2 h3 h4 h5⟩

/-- C3 counterexample: with per-query limit 2 and configured maximum 1,
a snapshot of two exactly-matching entities yields 2 results — more
than min(2, 1) = 1.  The code takes `query.maxResults ||
options.maxResults`, a fallback, not a minimum. -/
theorem C3_counterexample :
    Nifty.Search.queryMax2.maxResults = some 2
    ∧ Nifty.Search.cappedOpts.maxResults = 1
    ∧ ¬ ((Nifty.Search.search Nifty.Search.cappedOpts
          [Nifty.Search.entA, Nifty.Search.entA]
          Nifty.Search.queryMax2).length ≤ min 2 1) := by
  refine ⟨rfl, rfl, ?_⟩
  rw [Nifty.Search.search_capped]
  decide

/-- C3 amended: for both concrete engines the number of returned
results is at most the per-query maxResults when supplied and nonzero,
otherwise at most the engine's configured maxResults (the effective cap
is a fallback, not a minimum of the two). -/
theorem C3_result_cap :
    (∀ (opts : Nifty.Search.SearchOptions)
        (es : List Nifty.Search.DoxygenEntity)
        (q : Nifty.Search.SearchQuery),
      (Nifty.Search.search opts es q).length
        ≤ Nifty.Search.effectiveMax q.maxResults opts.maxResults)
    ∧ (∀ (frs : List Nifty.Search.FuseResult)
        (q : Nifty.Search.SearchQuery)
        (opts : Nifty.Search.SearchOptions),
      (Nifty.Search.fuzzySearchResults frs q opts).length
        ≤ Nifty.Search.effectiveMax q.maxResults opts.maxResults) := by
  constructor
  · intro opts es q
    exact List.length_take_le _ _
  · intro frs q opts
    exact List.length_take_le _ _

/-- C8: Calling the Fuzzy engine's search with no prior loadEntities
fails with the load-state error, and after any loadEntities call the
index exists, so search succeeds (no longer fails for that reason). -/
theorem C8_search_requires_load :
    (∀ (fuseExec : Nifty.Search.FuseIndex → List Char →
        List Nifty.Search.FuseResult)
        (q : Nifty.Search.SearchQuery) (opts : Nifty.Search.SearchOptions),
      Nifty.Search.fuzzySearch fuseExec Nifty.Search.initialFuzzyState q opts
        = .error "Entities not loaded. Call loadEntities() first.")
    ∧ (∀ (fuseExec : Nifty.Search.FuseIndex → List Char →
        List Nifty.Search.FuseResult)
        (st : Nifty.Search.FuzzyEngineState)
        (es : List Nifty.Search.DoxygenEntity)
        (q : Nifty.Search.SearchQuery) (opts : Nifty.Search.SearchOptions),
      ∃ rs, Nifty.Search.fuzzySearch fuseExec
          (Nifty.Search.loadEntities st es) q opts = .ok rs) := by
  constructor
  · intro fuseExec q opts
    rfl
  · intro fuseExec st es q opts
    exact ⟨_, rfl⟩

/-- C4 counterexample: the namespace builder applied to a node with no
`prot` attribute leaves the entity's visibility absent (`none`), not
resolved to public — `extractVisibility` returns `undefined` for a
missing attribute and `buildBase` stores it as is. -/
theorem C4_counterexample :
    Nifty.Parser.nodeNoProt.protAttr = none
    ∧ (Nifty.Parser.namespaceBuild Nifty.Parser.nodeNoProt).visibility
        = none
    ∧ (Nifty.Parser.namespaceBuild Nifty.Parser.nodeNoProt).visibility
        ≠ some Nifty.Parser.Visibility.«public» := by
  refine ⟨rfl, ?_, ?_⟩ <;> decide

/-- C4 amended: when the source node carries no `prot` attribute, an
entity built through the shared base extraction has its visibility
absent (left undefined), not resolved to public, while a lightweight
member reference extracted from a `memberdef` defaults its visibility
to `"public"`. -/
theorem C4_visibility_default (n : Nifty.Parser.XmlNode)
    (md : Nifty.Parser.MemberDef)
    (hn : n.protAttr = none) (hmd : md.protAttr = none) :
    (Nifty.Parser.namespaceBuild n).visibility = none
    ∧ (Nifty.Parser.toMemberReference md).visibility = "public" := by
  constructor
  · simp [Nifty.Parser.namespaceBuild, Nifty.Parser.buildBase,
      Nifty.Parser.extractVisibility, hn]
  · simp [Nifty.Parser.toMemberReference, Nifty.Parser.strOr, hmd]

/-- C4 witness: the amended theorem applied to the concrete attribute-
free node and an attribute-free member definition. -/
theorem C4_witness :
    Nifty.Parser.nodeNoProt.protAttr = none
    ∧ ({} : Nifty.Parser.MemberDef).protAttr = none
    ∧ ((Nifty.Parser.namespaceBuild Nifty.Parser.nodeNoProt).visibility
        = none
      ∧ (Nifty.Parser.toMemberReference
          ({} : Nifty.Parser.MemberDef)).visibility = "public") :=
  ⟨rfl, rfl, C4_visibility_default Nifty.Parser.nodeNoProt
    ({} : Nifty.Parser.MemberDef) rfl rfl⟩

/-- C9: the enum builder turns initializer text "= 0xFF0000" into the
explicit value "0xFF0000"; an absent initializer, or one whose text is
empty after stripping the leading `=` and trimming, yields no explicit
value (absent, not the empty string); likewise `underlyingType` is
absent for a missing type node and whenever the type node's flattened
text is blank. -/
theorem C9_enum_builder (node : Nifty.Parser.EnumValueNode)
    (x t : Nifty.Parser.XText)
    (hini : node.initializer = some x)
    (hblank : Nifty.Parser.trimS
      (Nifty.Parser.stripLeadingEq (Nifty.Parser.extractText x)) = "")
    (htblank : Nifty.Parser.trimS (Nifty.Parser.extractText t) = "") :
    (Nifty.Parser.buildEnumValue
        { initializer := some (.str "= 0xFF0000") }).value
      = some "0xFF0000"
    ∧ (∀ nd : Nifty.Parser.EnumValueNode, nd.initializer = none →
        (Nifty.Parser.buildEnumValue nd).value = none)
    ∧ (Nifty.Parser.buildEnumValue node).value = none
    ∧ Nifty.Parser.extractUnderlyingType none = none
    ∧ Nifty.Parser.extractUnderlyingType (some t) = none := by
  refine ⟨by decide, ?_, ?_, rfl, ?_⟩
  · intro nd hnd
    simp [Nifty.Parser.buildEnumValue, Nifty.Parser.extractExplicitValue,
      hnd]
  · simp only [Nifty.Parser.buildEnumValue,
      Nifty.Parser.extractExplicitValue, hini]
    by_cases hf : Nifty.Parser.xFalsy x = true
    · simp [hf]
    · simp [hf, hblank]
  · simp only [Nifty.Parser.extractUnderlyingType]
    by_cases hf : Nifty.Parser.xFalsy t = true
    · simp [hf]
    · simp [hf, htblank]

/-- C9 witness: the theorem applied to the initializer node " = "
(blank after stripping) and the blank type node "  ". -/
theorem C9_witness :
    ({ initializer := some (.str " = ") }
        : Nifty.Parser.EnumValueNode).initializer = some (.str " = ")
    ∧ Nifty.Parser.trimS (Nifty.Parser.stripLeadingEq
        (Nifty.Parser.extractText (.str " = "))) = ""
    ∧ Nifty.Parser.trimS
        (Nifty.Parser.extractText (.str "  ")) = ""
    ∧ ((Nifty.Parser.buildEnumValue
          { initializer := some (.str "= 0xFF0000") }).value
        = some "0xFF0000"
      ∧ (∀ nd : Nifty.Parser.EnumValueNode, nd.initializer = none →
          (Nifty.Parser.buildEnumValue nd).value = none)
      ∧ (Nifty.Parser.buildEnumValue
          { initializer := some (.str " = ") }).value = none
      ∧ Nifty.Parser.extractUnderlyingType none = none
      ∧ Nifty.Parser.extractUnderlyingType (some (.str "  ")) = none) :=
  ⟨rfl, by decide, by decide,
    C9_enum_builder { initializer := some (.str " = ") } (.str " = ")
      (.str "  ") rfl (by decide) (by decide)⟩

namespace Nifty
namespace Parser

theorem parseCompounds_all_ok {Entity : Type}
    (f : CompoundInfo → Except String (List Entity))
    (okEnts : CompoundInfo → List Entity) (l : List CompoundInfo)
    (h : ∀ c ∈ l, f c = .ok (okEnts c)) :
    parseCompounds f l = (l.flatMap okEnts, []) := by
  induction l with
  | nil => rfl
  | cons c rest ih =>
      have hc : f c = .ok (okEnts c) := h c (List.mem_cons_self c rest)
      have hrest := ih fun cc hcc => h cc (List.mem_cons.mpr (Or.inr hcc))
      simp [parseCompounds, hc, hrest]

theorem buildMembers_all_ok {Entity : Type}
    (build : MemberDef → Except String Entity) (parentId : String)
    (okMember : MemberDef → Entity) (l : List MemberDef)
    (h : ∀ md ∈ l, build md = .ok (okMember md)) :
    buildMembers build parentId l = (l.map okMember, []) := by
  induction l with
  | nil => rfl
  | cons md rest ih =>
      have hmd : build md = .ok (okMember md) :=
        h md (List.mem_cons_self md rest)
      have hrest := ih fun mm hmm => h mm (List.mem_cons.mpr (Or.inr hmm))
      simp [buildMembers, hmd, hrest]

theorem parseCompounds_one_bad {Entity : Type}
    (f : CompoundInfo → Except String (List Entity))
    (okEnts : CompoundInfo → List Entity) (bad : CompoundInfo)
    (msg : String) (hbad : f bad = .error msg) (pre post : List CompoundInfo)
    (hok : ∀ c ∈ pre ++ post, f c = .ok (okEnts c)) :
    parseCompounds f (pre ++ bad :: post)
      = (pre.flatMap okEnts ++ post.flatMap okEnts,
         [{ file := bad.refid ++ ".xml", entityId := none,
            message := "Failed to parse compound: " ++ msg,
            severity := .error }]) := by
  induction pre with
  | nil =>
      have hpost : ∀ c ∈ post, f c = .ok (okEnts c) := fun c hc =>
        hok c (by simpa using hc)
      simp [parseCompounds, hbad, parseCompounds_all_ok f okEnts post hpost]
  | cons c pre' ih =>
      have hc : f c = .ok (okEnts c) :=
        hok c (by simp)
      have hok' : ∀ cc ∈ pre' ++ post, f cc = .ok (okEnts cc) := by
        intro cc hcc
        apply hok
        rw [List.cons_append]
        exact List.mem_cons.mpr (Or.inr hcc)
      have ih' := ih hok'
      simp [parseCompounds, hc, ih']

theorem buildMembers_one_bad {Entity : Type}
    (build : MemberDef → Except String Entity) (parentId : String)
    (okMember : MemberDef → Entity) (mbad : MemberDef) (mmsg : String)
    (hmbad : build mbad = .error mmsg) (mpre mpost : List MemberDef)
    (hmok : ∀ md ∈ mpre ++ mpost, build md = .ok (okMember md)) :
    buildMembers build parentId (mpre ++ mbad :: mpost)
      = (mpre.map okMember ++ mpost.map okMember,
         [{ file := parentId ++ ".xml", entityId := mbad.idAttr,
            message := "Failed to parse member: " ++ mmsg,
            severity := .warning }]) := by
  induction mpre with
  | nil =>
      have hpost : ∀ md ∈ mpost, build md = .ok (okMember md) := fun md hm =>
        hmok md (by simpa using hm)
      simp [buildMembers, hmbad,
        buildMembers_all_ok build parentId okMember mpost hpost]
  | cons md mpre' ih =>
      have hmd : build md = .ok (okMember md) := hmok md (by simp)
      have hmok' : ∀ mm ∈ mpre' ++ mpost, build mm = .ok (okMember mm) := by
        intro mm hmm
        apply hmok
        rw [List.cons_append]
        exact List.mem_cons.mpr (Or.inr hmm)
      have ih' := ih hmok'
      simp [buildMembers, hmd, ih']

end Parser
end Nifty

/-- C7: with exactly one malformed compound among N, `parseCompounds`
records exactly one ParseError of severity `error` for it, does not
abort, and the entities of every other compound are all returned, in
order; a failure building a single member records a ParseError of
severity `warning` and processing continues with the remaining members
of the section. -/
theorem C7_error_isolation {Entity : Type}
    (f : Nifty.Parser.CompoundInfo → Except String (List Entity))
    (okEnts : Nifty.Parser.CompoundInfo → List Entity)
    (bad : Nifty.Parser.CompoundInfo) (msg : String)
    (pre post : List Nifty.Parser.CompoundInfo)
    (build : Nifty.Parser.MemberDef → Except String Entity)
    (parentId : String) (okMember : Nifty.Parser.MemberDef → Entity)
    (mbad : Nifty.Parser.MemberDef) (mmsg : String)
    (mpre mpost : List Nifty.Parser.MemberDef)
    (hbad : f bad = .error msg)
    (hok : ∀ c ∈ pre ++ post, f c = .ok (okEnts c))
    (hmbad : build mbad = .error mmsg)
    (hmok : ∀ md ∈ mpre ++ mpost, build md = .ok (okMember md)) :
    Nifty.Parser.parseCompounds f (pre ++ bad :: post)
      = (pre.flatMap okEnts ++ post.flatMap okEnts,
         [{ file := bad.refid ++ ".xml", entityId := none,
            message := "Failed to parse compound: " ++ msg,
            severity := .error }])
    ∧ Nifty.Parser.extractMembersOrch build parentId
        [{ memberdef := mpre ++ mbad :: mpost }]
      = (mpre.map okMember ++ mpost.map okMember,
         [{ file := parentId ++ ".xml", entityId := mbad.idAttr,
            message := "Failed to parse member: " ++ mmsg,
            severity := .warning }]) := by
  constructor
  · exact Nifty.Parser.parseCompounds_one_bad f okEnts bad msg hbad
      pre post hok
  · simp [Nifty.Parser.extractMembersOrch,
      Nifty.Parser.buildMembers_one_bad build parentId okMember mbad mmsg
        hmbad mpre mpost hmok]

/-- C7 witness: the theorem applied to three compounds of which exactly
the middle one is malformed, and three members of which exactly the
middle one fails to build. -/
theorem C7_witness :
    Nifty.Parser.sampleParse Nifty.Parser.compB = .error "bad xml"
    ∧ (∀ c ∈ [Nifty.Parser.compA] ++ [Nifty.Parser.compC],
        Nifty.Parser.sampleParse c = .ok [c.name])
    ∧ Nifty.Parser.sampleBuild Nifty.Parser.membBad
        = .error "unsupported kind"
    ∧ (∀ md ∈ [Nifty.Parser.memb1] ++ [Nifty.Parser.memb2],
        Nifty.Parser.sampleBuild md = .ok (Nifty.Parser.strOr md.name ""))
    ∧ (Nifty.Parser.parseCompounds Nifty.Parser.sampleParse
        ([Nifty.Parser.compA] ++ Nifty.Parser.compB :: [Nifty.Parser.compC])
        = ([Nifty.Parser.compA].flatMap (fun c => [c.name])
            ++ [Nifty.Parser.compC].flatMap (fun c => [c.name]),
           [{ file := Nifty.Parser.compB.refid ++ ".xml", entityId := none,
              message := "Failed to parse compound: " ++ "bad xml",
              severity := .error }])
      ∧ Nifty.Parser.extractMembersOrch Nifty.Parser.sampleBuild "ns"
          [{ memberdef := [Nifty.Parser.memb1]
              ++ Nifty.Parser.membBad :: [Nifty.Parser.memb2] }]
        = ([Nifty.Parser.memb1].map (fun md => Nifty.Parser.strOr md.name "")
            ++ [Nifty.Parser.memb2].map
                (fun md => Nifty.Parser.strOr md.name ""),
           [{ file := "ns" ++ ".xml",
              entityId := Nifty.Parser.membBad.idAttr,
              message := "Failed to parse member: " ++ "unsupported kind",
              severity := .warning }])) := by
  have h1 : Nifty.Parser.sampleParse Nifty.Parser.compB
      = .error "bad xml" := rfl
  have h2 : ∀ c ∈ [Nifty.Parser.compA] ++ [Nifty.Parser.compC],
      Nifty.Parser.sampleParse c = .ok [c.name] := by
    intro c hc
    simp only [List.cons_append, List.nil_append, List.mem_cons,
      List.mem_singleton, List.not_mem_nil, or_false] at hc
    rcases hc with rfl | rfl <;> rfl
  have h3 : Nifty.Parser.sampleBuild Nifty.Parser.membBad
      = .error "unsupported kind" := rfl
  have h4 : ∀ md ∈ [Nifty.Parser.memb1] ++ [Nifty.Parser.memb2],
      Nifty.Parser.sampleBuild md
        = .ok (Nifty.Parser.strOr md.name "") := by
    intro md hmd
    simp only [List.cons_append, List.nil_append, List.mem_cons,
      List.mem_singleton, List.not_mem_nil, or_false] at hmd
    rcases hmd with rfl | rfl <;> rfl
  exact ⟨h1, h2, h3, h4,
    C7_error_isolation Nifty.Parser.sampleParse (fun c => [c.name])
      Nifty.Parser.compB "bad xml" [Nifty.Parser.compA]
      [Nifty.Parser.compC] Nifty.Parser.sampleBuild "ns"
      (fun md => Nifty.Parser.strOr md.name "") Nifty.Parser.membBad
      "unsupported kind" [Nifty.Parser.memb1] [Nifty.Parser.memb2]
      h1 h2 h3 h4⟩

